import Mathlib

/-!
Shallow embedding of the release-tools execution engine (`src/automata.py`,
driver and task chain in `src/tasks.py`) and proofs about it.

Python strings are modelled as `List Char`; the shelve store is modelled as a
record with one `Option`-valued field per key the program uses, `none` meaning
the key is absent (through `db.get` an absent key and a stored `None` are
indistinguishable).  Exceptions are modelled with explicit result types, and
the store as it stands at raise time is carried along, since shelve writes
made before a raise persist.
-/

namespace ReleaseTools

/-- The characters of a string literal (Python `str` values as `List Char`). -/
def str (s : String) : List Char := s.data

/-- Model of `RELEASE_REGEXP = re.compile(r"(?P<major>\d+)\.(?P<minor>\d+)\.(?P<patch>\d+)\.?(?P<extra>.*)?")`
applied with `re.match` (anchored at the start of the string, not at its end).
Since `\d` and the literal dot are disjoint, each greedy `\d+` deterministically
captures a maximal digit run; `\.?` greedily consumes one optional dot; the group
`(?P<extra>.*)?` captures the remaining characters up to (but excluding) a
newline, because `.` does not match a newline and `re.match` does not require
the whole string to be consumed.  Returns the four named groups on success and
`none` when the input does not match. -/
def releaseMatch (s : List Char) : Option (List Char × List Char × List Char × List Char) :=
  let major := s.takeWhile Char.isDigit
  let r1 := s.dropWhile Char.isDigit
  if major.isEmpty then none else
  match r1 with
  | '.' :: r2 =>
    let minor := r2.takeWhile Char.isDigit
    let r3 := r2.dropWhile Char.isDigit
    if minor.isEmpty then none else
    match r3 with
    | '.' :: r4 =>
      let patch := r4.takeWhile Char.isDigit
      let r5 := r4.dropWhile Char.isDigit
      if patch.isEmpty then none else
      let r6 := match r5 with
        | '.' :: r => r
        | r => r
      some (major, minor, patch, r6.takeWhile (fun c => c != '\n'))
    | _ => none
  | _ => none

/-- The persistent store (the shelve file `~/.python_release`) restricted to the
keys the program reads or writes: `finished`, `completed_tasks`,
`last_checkpoint`, `git_repo`, `release`, `normalized_release`,
`release_branch`, `gpg_key`.  A field holding `none` models an absent key.
`τ` is the type of task references (the `Task` subclasses of `tasks.py`, which
are stored and compared as stable identifiers). -/
structure Store (τ : Type) where
  finished : Option Bool := none
  completed_tasks : Option (List τ) := none
  last_checkpoint : Option τ := none
  git_repo : Option (List Char) := none
  release : Option (List Char) := none
  normalized_release : Option (List Char) := none
  release_branch : Option (List Char) := none
  gpg_key : Option (List Char) := none
  deriving Repr, DecidableEq

/-- A freshly reset shelve file (`shelve.open(dbfile, "n")`): every key absent. -/
def emptyStore {τ : Type} : Store τ := {}

/-- Python truthiness of `db.get(key)` for a string-valued key: absent (`None`)
and the empty string are falsy, every other string is truthy. -/
def truthyStr : Option (List Char) → Bool
  | none => false
  | some v => !v.isEmpty

/-- Python truthiness of `db.get("finished")`: absent (`None`) and `False` are
falsy, `True` is truthy. -/
def truthyBool : Option Bool → Bool
  | none => false
  | some b => b

/-- Model of `pathlib.Path(git_repo)` as it is stored in the db, viewed through
its path string.  Only the aspect the program relies on is modelled: a `Path`
always renders as a nonempty string (`Path("")` is `Path(".")`), hence a stored
`git_repo` is always truthy in later `db.get` checks. -/
def pathOf (g : List Char) : List Char := if g.isEmpty then str "." else g

/-- The in-memory fields of `FiniteStateMachine`: `self.current_task` and
`self.completed_tasks` (the db handle is passed separately as a `Store`). -/
structure FSM (τ : Type) where
  current_task : Option τ
  completed_tasks : List τ
  deriving Repr, DecidableEq

/-- Exceptions `FiniteStateMachine.__init__` can raise while handling the
release string. -/
inductive InitErr
  | attributeError
  | valueError
  deriving Repr, DecidableEq

/-- Result of `FiniteStateMachine.__init__`: either the constructed in-memory
engine state together with the store, or a raised exception together with the
store as already mutated (shelve writes made before the raise persist). -/
inductive InitResult (τ : Type)
  | ok (fsm : FSM τ) (s : Store τ)
  | err (e : InitErr) (s : Store τ)
  deriving Repr, DecidableEq

/-- The store a construction attempt leaves behind, whether or not it raised. -/
def InitResult.store {τ : Type} : InitResult τ → Store τ
  | .ok _ s => s
  | .err _ s => s

/-- The keys of `match.groupdict()` for `RELEASE_REGEXP`: a Python match object's
`groupdict()` always contains every named group of the pattern as a key, whether
or not that group captured anything. -/
def groupdictKeys : List (List Char) := [str "major", str "minor", str "patch", str "extra"]

/-- Line 29-30 of `automata.py`: `if not self.db.get("git_repo"):
self.db["git_repo"] = pathlib.Path(git_repo)`. -/
def seedGit {τ : Type} (git_repo : List Char) (s : Store τ) : Store τ :=
  if truthyStr s.git_repo then s else {s with git_repo := some (pathOf git_repo)}

/-- Line 38-39 of `automata.py`: `if not self.db.get("release"):
self.db["release"] = release`. -/
def seedRelease {τ : Type} (release : List Char) (s : Store τ) : Store τ :=
  if truthyStr s.release then s else {s with release := some release}

/-- Line 40-41 of `automata.py`: `if not self.db.get("normalized_release"):
self.db["normalized_release"] = f"{major}.{minor}.{patch}"`. -/
def seedNormalized {τ : Type} (normalized : List Char) (s : Store τ) : Store τ :=
  if truthyStr s.normalized_release then s else {s with normalized_release := some normalized}

/-- Lines 42-48 of `automata.py`: `if not self.db.get("release_branch"):
self.db["release_branch"] = branch`. -/
def seedBranch {τ : Type} (branch : List Char) (s : Store τ) : Store τ :=
  if truthyStr s.release_branch then s else {s with release_branch := some branch}

/-- Lines 25-48 of `automata.py`, the part of `FiniteStateMachine.__init__` that
runs after the `finished` handling: set `current_task` and `completed_tasks`,
seed `git_repo`, match the release string against `RELEASE_REGEXP` and seed
`release`, `normalized_release` and `release_branch`, each write guarded by the
Python truthiness of the value already stored.  The `gpg_key` branch only
mutates `os.environ`, not the store, and the prints are omitted.  The source
order is kept exactly: `match.group("major")` is evaluated before the
`if not match` check, so a non-matching release string raises `AttributeError`
there (`None` has no attribute `group`) and the `raise ValueError` line is
unreachable; when the match succeeded, `not match` is false and that branch is
skipped, which the `some` arm below reflects by never raising `valueError`.
The branch value mirrors line 43-47: the string `"extra"` is always a key of
`match.groupdict()`, so the condition `"extra" not in match.groupdict()` is
always false and the `else` value `"master"` is always chosen. -/
def seedPhase {τ : Type} (release git_repo : List Char) (first_state : Option τ)
    (s1 : Store τ) : InitResult τ :=
  let fsm : FSM τ := ⟨first_state, s1.completed_tasks.getD []⟩
  let s2 := seedGit git_repo s1
  match releaseMatch release with
  | none => .err .attributeError s2
  | some (major, minor, patch, _extra) =>
    let normalized := major ++ '.' :: (minor ++ '.' :: patch)
    let branch := if str "extra" ∉ groupdictKeys then normalized else str "master"
    .ok fsm (seedBranch branch (seedNormalized normalized (seedRelease release s2)))

/-- `FiniteStateMachine.__init__` (`automata.py` lines 15-55).  The store
argument is the contents of the shelve file as opened in `"c"` (open-or-create)
mode; when `db.get("finished")` is truthy the file is closed and reopened in
`"n"` mode, i.e. reset to empty (note the reset branch does not write the
`finished` flag into the fresh file), otherwise `finished` is set to `False`
(overwriting an absent flag or an already-false one). -/
def init {τ : Type} (release git_repo : List Char) (first_state : Option τ)
    (s0 : Store τ) : InitResult τ :=
  if truthyBool s0.finished then seedPhase release git_repo first_state emptyStore
  else seedPhase release git_repo first_state {s0 with finished := some false}

/-- `FiniteStateMachine.checkpoint`: persist the in-memory completed-task list
and the current task pointer.  The shelve pickles on assignment, so this stores
a snapshot of `self.completed_tasks`; later in-memory appends do not reach the
store until the next checkpoint. -/
def checkpointStore {τ : Type} (fsm : FSM τ) (s : Store τ) : Store τ :=
  {s with completed_tasks := some fsm.completed_tasks, last_checkpoint := fsm.current_task}

/-- `FiniteStateMachine.load_checkpoint`: set the current task pointer from the
store and return it. -/
def loadCheckpoint {τ : Type} (fsm : FSM τ) (s : Store τ) : FSM τ × Option τ :=
  ({fsm with current_task := s.last_checkpoint}, s.last_checkpoint)

/-- A task's behaviour at the engine boundary: `run` receives the store and
returns the possibly mutated store together with either a returned value or a
raised exception of type `ε` (mutations made before a raise persist, as with a
shelve); `next` is evaluated only after a successful `run`, on the store as
`run` left it.  The returned value is an `Option (List Char)` because the
historical bodies return `None`, a string, or a `shutil.which` result; the
engine binds it (`result = current_state.run()`) and never inspects it. -/
structure TaskImpl (τ ε : Type) where
  run : Store τ → Store τ × Except ε (Option (List Char))
  next : Store τ → Option τ

/-- Outcome of `FiniteStateMachine.run`, made total with explicit fuel: `done`
is the `finished = True` write after the loop, `failed e` is the re-raised task
exception (`raise e from None` re-raises the very same exception object, only
suppressing its context), and `outOfFuel` truncates an execution longer than
the supplied fuel (the Python loop simply keeps following successors). -/
inductive RunResult (τ ε : Type)
  | done (fsm : FSM τ) (s : Store τ)
  | failed (e : ε) (fsm : FSM τ) (s : Store τ)
  | outOfFuel (fsm : FSM τ) (s : Store τ)
  deriving Repr, DecidableEq

/-- `FiniteStateMachine.run` (`automata.py` lines 65-82): while a current task
exists, checkpoint, instantiate and run the task, on success append its
reference to the in-memory `completed_tasks` (the persisted copy is only
refreshed by the next checkpoint) and advance to the successor the task
reports; on an exception re-raise it unchanged and stop.  When the pointer is
exhausted, persist `finished = True`.  The initial display loop over
`completed_tasks` only prints and is omitted. -/
def runLoop {τ ε : Type} (impl : τ → TaskImpl τ ε) : Nat → FSM τ → Store τ → RunResult τ ε
  | 0, fsm, s => .outOfFuel fsm s
  | fuel + 1, fsm, s =>
    match fsm.current_task with
    | none => .done fsm {s with finished := some true}
    | some t =>
      let sc := checkpointStore fsm s
      match (impl t).run sc with
      | (s', .error e) => .failed e fsm s'
      | (s', .ok _result) =>
        runLoop impl fuel ⟨(impl t).next s', fsm.completed_tasks ++ [t]⟩ s'

/-- The start-up protocol of the driver (`tasks.py` lines 514-520): construct
the engine with no explicit starting task, call `load_checkpoint`, and if it
returned a falsy value (no stored checkpoint, or a stored `None`) point the
engine at the caller-supplied starting task instead. -/
def startup {τ : Type} (release git_repo : List Char) (first : τ) (s0 : Store τ) :
    InitResult τ :=
  match init release git_repo none s0 with
  | .err e s => .err e s
  | .ok fsm s =>
    match loadCheckpoint fsm s with
    | (fsm1, none) => .ok {fsm1 with current_task := some first} s
    | (fsm1, some _) => .ok fsm1 s

/-- The task bodies of `tasks.py` read and write only domain keys (`gpg_key` in
`check_gpg_keys`); none of them writes the engine bookkeeping keys
`completed_tasks`, `last_checkpoint` or `finished`.  This predicate states that
property of a family of task implementations. -/
def preservesBookkeeping {τ ε : Type} (impl : τ → TaskImpl τ ε) : Prop :=
  ∀ t s, ((impl t).run s).1.completed_tasks = s.completed_tasks ∧
    ((impl t).run s).1.last_checkpoint = s.last_checkpoint ∧
    ((impl t).run s).1.finished = s.finished

/-- The stores a run writes or leaves behind, in order: for every iteration the
store as persisted by the checkpoint and the store as the task body left it,
and, when the pointer runs out, the final store with `finished = True`.  This
is the sequence of durable states an operator (or a crash) can observe during
`FiniteStateMachine.run`. -/
def storeTrace {τ ε : Type} (impl : τ → TaskImpl τ ε) :
    Nat → FSM τ → Store τ → List (Store τ)
  | 0, _, _ => []
  | fuel + 1, fsm, s =>
    match fsm.current_task with
    | none => [{s with finished := some true}]
    | some t =>
      let sc := checkpointStore fsm s
      match (impl t).run sc with
      | (s', .error _) => [sc, s']
      | (s', .ok _result) =>
        sc :: s' :: storeTrace impl fuel ⟨(impl t).next s', fsm.completed_tasks ++ [t]⟩ s'

/-- The execution from this state never schedules a task that is already in the
in-memory completed list: the successor pointers followed by this run form an
acyclic chain, as the spec's data model stipulates (a chain must be acyclic in
any given execution for the run to terminate). -/
def traceOK {τ ε : Type} (impl : τ → TaskImpl τ ε) : Nat → FSM τ → Store τ → Prop
  | 0, _, _ => True
  | fuel + 1, fsm, s =>
    match fsm.current_task with
    | none => True
    | some t =>
      t ∉ fsm.completed_tasks ∧
      (match (impl t).run (checkpointStore fsm s) with
       | (_, .error _) => True
       | (s', .ok _result) => traceOK impl fuel ⟨(impl t).next s', fsm.completed_tasks ++ [t]⟩ s')

/-- The invariant claimed of `last_checkpoint`: it refers to a task that the
persisted history does not list as complete, unless it is null. -/
def lcInv {τ : Type} (s : Store τ) : Prop :=
  ∀ t, s.last_checkpoint = some t → t ∉ s.completed_tasks.getD []

/-- The task classes of `tasks.py`, used as stable task references. -/
inductive TaskRef
  | check_buildbots
  | check_ssh_connection
  | check_gpg_keys
  | check_git
  | check_blurb
  | check_make
  | check_autoconf
  | check_cpython_repo_is_clean
  | run_blurb_release
  | check_docs
  | prepare_pydoc_topics
  | run_autoconf
  | check_pyspecific
  | bump_version
  | create_tag
  | build_release_artifacts
  | test_release_artifacts
  | upload_files_to_server
  | place_files_in_download_folder
  | send_email_to_platform_release_managers
  | create_release_object_in_db
  | wait_util_all_files_are_in_folder
  deriving Repr, DecidableEq

/-- The tool-availability tasks of `tasks.py` (`check_git`, `check_make`,
`check_blurb`, `check_autoconf`): each body is `return shutil.which(tool)` and
each `next` returns a fixed successor class.  `which` models `shutil.which`,
the ambient lookup of a tool on PATH (`none` when the tool is absent); the
bodies touch nothing else, never raise, and return the lookup result as-is.
Every other task class is taken from the opaque family `rest`. -/
def checksImpl {ε : Type} (which : List Char → Option (List Char))
    (rest : TaskRef → TaskImpl TaskRef ε) : TaskRef → TaskImpl TaskRef ε
  | .check_git => ⟨fun s => (s, .ok (which (str "git"))), fun _ => some .check_make⟩
  | .check_make => ⟨fun s => (s, .ok (which (str "make"))), fun _ => some .check_blurb⟩
  | .check_blurb => ⟨fun s => (s, .ok (which (str "blurb"))), fun _ => some .check_autoconf⟩
  | .check_autoconf => ⟨fun s => (s, .ok (which (str "autoconf"))), fun _ => some .check_gpg_keys⟩
  | t => rest t

/-- A concrete three-task chain for the end-to-end scenario: tasks 1 → 2 → 3,
every body succeeds without touching the store, task 3 is terminal. -/
def chain3 : Nat → TaskImpl Nat Unit := fun t =>
  { run := fun s => (s, .ok none),
    next := fun _ => if t = 1 then some 2 else if t = 2 then some 3 else none }

/-- A concrete task family whose every task raises immediately without touching
the store. -/
def failing : Nat → TaskImpl Nat Unit := fun _ =>
  { run := fun s => (s, .error ()), next := fun _ => none }

/-! Field behaviour of the four seeding steps: each one writes only its own key,
and leaves a key already holding a truthy (nonempty) value unchanged. -/

@[simp] theorem seedGit_finished {τ : Type} (g : List Char) (s : Store τ) :
    (seedGit g s).finished = s.finished := by unfold seedGit; split <;> rfl

@[simp] theorem seedGit_completed_tasks {τ : Type} (g : List Char) (s : Store τ) :
    (seedGit g s).completed_tasks = s.completed_tasks := by unfold seedGit; split <;> rfl

@[simp] theorem seedGit_last_checkpoint {τ : Type} (g : List Char) (s : Store τ) :
    (seedGit g s).last_checkpoint = s.last_checkpoint := by unfold seedGit; split <;> rfl

@[simp] theorem seedGit_release {τ : Type} (g : List Char) (s : Store τ) :
    (seedGit g s).release = s.release := by unfold seedGit; split <;> rfl

@[simp] theorem seedGit_normalized_release {τ : Type} (g : List Char) (s : Store τ) :
    (seedGit g s).normalized_release = s.normalized_release := by unfold seedGit; split <;> rfl

@[simp] theorem seedGit_release_branch {τ : Type} (g : List Char) (s : Store τ) :
    (seedGit g s).release_branch = s.release_branch := by unfold seedGit; split <;> rfl

@[simp] theorem seedGit_gpg_key {τ : Type} (g : List Char) (s : Store τ) :
    (seedGit g s).gpg_key = s.gpg_key := by unfold seedGit; split <;> rfl

theorem seedGit_git_repo_of_none {τ : Type} (g : List Char) (s : Store τ)
    (h : s.git_repo = none) : (seedGit g s).git_repo = some (pathOf g) := by
  unfold seedGit; simp [truthyStr, h]

theorem seedGit_git_repo_of_nonempty {τ : Type} (g v : List Char) (s : Store τ)
    (h : s.git_repo = some v) (hv : v ≠ []) : (seedGit g s).git_repo = some v := by
  unfold seedGit
  simp [truthyStr, h, List.isEmpty_iff, hv]

@[simp] theorem seedRelease_finished {τ : Type} (r : List Char) (s : Store τ) :
    (seedRelease r s).finished = s.finished := by unfold seedRelease; split <;> rfl

@[simp] theorem seedRelease_completed_tasks {τ : Type} (r : List Char) (s : Store τ) :
    (seedRelease r s).completed_tasks = s.completed_tasks := by unfold seedRelease; split <;> rfl

@[simp] theorem seedRelease_last_checkpoint {τ : Type} (r : List Char) (s : Store τ) :
    (seedRelease r s).last_checkpoint = s.last_checkpoint := by unfold seedRelease; split <;> rfl

@[simp] theorem seedRelease_git_repo {τ : Type} (r : List Char) (s : Store τ) :
    (seedRelease r s).git_repo = s.git_repo := by unfold seedRelease; split <;> rfl

@[simp] theorem seedRelease_normalized_release {τ : Type} (r : List Char) (s : Store τ) :
    (seedRelease r s).normalized_release = s.normalized_release := by
  unfold seedRelease; split <;> rfl

@[simp] theorem seedRelease_release_branch {τ : Type} (r : List Char) (s : Store τ) :
    (seedRelease r s).release_branch = s.release_branch := by unfold seedRelease; split <;> rfl

@[simp] theorem seedRelease_gpg_key {τ : Type} (r : List Char) (s : Store τ) :
    (seedRelease r s).gpg_key = s.gpg_key := by unfold seedRelease; split <;> rfl

theorem seedRelease_release_of_none {τ : Type} (r : List Char) (s : Store τ)
    (h : s.release = none) : (seedRelease r s).release = some r := by
  unfold seedRelease; simp [truthyStr, h]

theorem seedRelease_release_of_nonempty {τ : Type} (r v : List Char) (s : Store τ)
    (h : s.release = some v) (hv : v ≠ []) : (seedRelease r s).release = some v := by
  unfold seedRelease
  simp [truthyStr, h, List.isEmpty_iff, hv]

@[simp] theorem seedNormalized_finished {τ : Type} (n : List Char) (s : Store τ) :
    (seedNormalized n s).finished = s.finished := by unfold seedNormalized; split <;> rfl

@[simp] theorem seedNormalized_completed_tasks {τ : Type} (n : List Char) (s : Store τ) :
    (seedNormalized n s).completed_tasks = s.completed_tasks := by
  unfold seedNormalized; split <;> rfl

@[simp] theorem seedNormalized_last_checkpoint {τ : Type} (n : List Char) (s : Store τ) :
    (seedNormalized n s).last_checkpoint = s.last_checkpoint := by
  unfold seedNormalized; split <;> rfl

@[simp] theorem seedNormalized_git_repo {τ : Type} (n : List Char) (s : Store τ) :
    (seedNormalized n s).git_repo = s.git_repo := by unfold seedNormalized; split <;> rfl

@[simp] theorem seedNormalized_release {τ : Type} (n : List Char) (s : Store τ) :
    (seedNormalized n s).release = s.release := by unfold seedNormalized; split <;> rfl

@[simp] theorem seedNormalized_release_branch {τ : Type} (n : List Char) (s : Store τ) :
    (seedNormalized n s).release_branch = s.release_branch := by
  unfold seedNormalized; split <;> rfl

@[simp] theorem seedNormalized_gpg_key {τ : Type} (n : List Char) (s : Store τ) :
    (seedNormalized n s).gpg_key = s.gpg_key := by unfold seedNormalized; split <;> rfl

theorem seedNormalized_of_none {τ : Type} (n : List Char) (s : Store τ)
    (h : s.normalized_release = none) : (seedNormalized n s).normalized_release = some n := by
  unfold seedNormalized; simp [truthyStr, h]

theorem seedNormalized_of_nonempty {τ : Type} (n v : List Char) (s : Store τ)
    (h : s.normalized_release = some v) (hv : v ≠ []) :
    (seedNormalized n s).normalized_release = some v := by
  unfold seedNormalized
  simp [truthyStr, h, List.isEmpty_iff, hv]

@[simp] theorem seedBranch_finished {τ : Type} (b : List Char) (s : Store τ) :
    (seedBranch b s).finished = s.finished := by unfold seedBranch; split <;> rfl

@[simp] theorem seedBranch_completed_tasks {τ : Type} (b : List Char) (s : Store τ) :
    (seedBranch b s).completed_tasks = s.completed_tasks := by unfold seedBranch; split <;> rfl

@[simp] theorem seedBranch_last_checkpoint {τ : Type} (b : List Char) (s : Store τ) :
    (seedBranch b s).last_checkpoint = s.last_checkpoint := by unfold seedBranch; split <;> rfl

@[simp] theorem seedBranch_git_repo {τ : Type} (b : List Char) (s : Store τ) :
    (seedBranch b s).git_repo = s.git_repo := by unfold seedBranch; split <;> rfl

@[simp] theorem seedBranch_release {τ : Type} (b : List Char) (s : Store τ) :
    (seedBranch b s).release = s.release := by unfold seedBranch; split <;> rfl

@[simp] theorem seedBranch_normalized_release {τ : Type} (b : List Char) (s : Store τ) :
    (seedBranch b s).normalized_release = s.normalized_release := by
  unfold seedBranch; split <;> rfl

@[simp] theorem seedBranch_gpg_key {τ : Type} (b : List Char) (s : Store τ) :
    (seedBranch b s).gpg_key = s.gpg_key := by unfold seedBranch; split <;> rfl

theorem seedBranch_of_none {τ : Type} (b : List Char) (s : Store τ)
    (h : s.release_branch = none) : (seedBranch b s).release_branch = some b := by
  unfold seedBranch; simp [truthyStr, h]

theorem seedBranch_of_nonempty {τ : Type} (b v : List Char) (s : Store τ)
    (h : s.release_branch = some v) (hv : v ≠ []) :
    (seedBranch b s).release_branch = some v := by
  unfold seedBranch
  simp [truthyStr, h, List.isEmpty_iff, hv]

@[simp] theorem InitResult.store_ok {τ : Type} (fsm : FSM τ) (s : Store τ) :
    (InitResult.ok fsm s).store = s := rfl

@[simp] theorem InitResult.store_err {τ : Type} (e : InitErr) (s : Store τ) :
    (InitResult.err e s).store = s := rfl

/-- C1: the claim says the branch stored under `release_branch` is
`<major>.<minor>.<patch>` when the version string has no suffix.  Evaluating the
code at the suffix-free version `3.10.1` on a fresh store shows it stores
`master` instead: the guard `"extra" not in match.groupdict()` on line 45 of
`automata.py` is always false, because `groupdict()` always contains every
named group of the pattern, so the `else` value `"master"` is chosen for every
version string. -/
theorem release_branch_is_master_even_without_suffix :
    init (str "3.10.1") (str "/repo") none (emptyStore (τ := Nat)) =
      .ok ⟨none, []⟩ {emptyStore with
        finished := some false,
        git_repo := some (str "/repo"),
        release := some (str "3.10.1"),
        normalized_release := some (str "3.10.1"),
        release_branch := some (str "master")} ∧
    str "master" ≠ str "3.10.1" := by
  exact ⟨by decide, by decide⟩

/-- C2: the claim says a malformed version string fails construction with a
`ValidationError` and seeds no domain key.  Evaluating the code at the
malformed version `3.10` (missing the numeric patch component) on a fresh
store shows construction instead raises `AttributeError` — line 33 of
`automata.py` calls `match.group("major")` on `None` before the
`if not match` check can raise `ValueError` — and that the domain key
`git_repo` has already been seeded by line 29-30 before the failure. -/
theorem invalid_release_raises_attribute_error_after_seeding_git_repo :
    init (str "3.10") (str "/repo") none (emptyStore (τ := Nat)) =
      .err .attributeError {emptyStore with
        finished := some false,
        git_repo := some (str "/repo")} ∧
    InitErr.attributeError ≠ InitErr.valueError ∧
    (some (str "/repo") ≠ (none : Option (List Char))) := by
  exact ⟨by decide, by decide, by decide⟩

/-- A maximal run of characters satisfying `p` followed by a character that does
not satisfy `p` is what `takeWhile` captures. -/
theorem takeWhile_append_eq_left {p : Char → Bool} :
    ∀ (l r : List Char), (∀ c ∈ l, p c = true) →
      (∀ c, r.head? = some c → p c = false) → (l ++ r).takeWhile p = l
  | [], r, _, hr => by
    cases r with
    | nil => rfl
    | cons c rs => simp [List.takeWhile_cons, hr c rfl]
  | a :: l, r, hl, hr => by
    have ha : p a = true := hl a (by simp)
    simp only [List.cons_append, List.takeWhile_cons, ha, if_true]
    rw [takeWhile_append_eq_left l r (fun c hc => hl c (by simp [hc])) hr]

/-- The residue `dropWhile` leaves after a maximal run of characters satisfying
`p`. -/
theorem dropWhile_append_eq_right {p : Char → Bool} :
    ∀ (l r : List Char), (∀ c ∈ l, p c = true) →
      (∀ c, r.head? = some c → p c = false) → (l ++ r).dropWhile p = r
  | [], r, _, hr => by
    cases r with
    | nil => rfl
    | cons c rs => simp [List.dropWhile_cons, hr c rfl]
  | a :: l, r, hl, hr => by
    have ha : p a = true := hl a (by simp)
    simp only [List.cons_append, List.dropWhile_cons, ha, if_true]
    exact dropWhile_append_eq_right l r (fun c hc => hl c (by simp [hc])) hr

/-- On a version string decomposed as `<major>.<minor>.<patch><suffix>` with
nonempty all-digit components and a suffix that does not begin with a digit
(so the decomposition is the one the greedy regex produces), `releaseMatch`
succeeds and its `major`, `minor` and `patch` groups are exactly the three
components. -/
theorem releaseMatch_decomp (m n p suf : List Char)
    (hm : m ≠ []) (hmd : ∀ c ∈ m, c.isDigit = true)
    (hn : n ≠ []) (hnd : ∀ c ∈ n, c.isDigit = true)
    (hp : p ≠ []) (hpd : ∀ c ∈ p, c.isDigit = true)
    (hsuf : ∀ c, suf.head? = some c → c.isDigit = false) :
    ∃ extra, releaseMatch (m ++ '.' :: (n ++ '.' :: (p ++ suf))) = some (m, n, p, extra) := by
  have hdot : ∀ (x : List Char) (c : Char), ('.' :: x).head? = some c → c.isDigit = false := by
    intro x c hc
    simp only [List.head?_cons, Option.some.injEq] at hc
    subst hc
    decide
  have h1 : (m ++ '.' :: (n ++ '.' :: (p ++ suf))).takeWhile Char.isDigit = m :=
    takeWhile_append_eq_left _ _ hmd (hdot _)
  have h2 : (m ++ '.' :: (n ++ '.' :: (p ++ suf))).dropWhile Char.isDigit =
      '.' :: (n ++ '.' :: (p ++ suf)) :=
    dropWhile_append_eq_right _ _ hmd (hdot _)
  have h3 : (n ++ '.' :: (p ++ suf)).takeWhile Char.isDigit = n :=
    takeWhile_append_eq_left _ _ hnd (hdot _)
  have h4 : (n ++ '.' :: (p ++ suf)).dropWhile Char.isDigit = '.' :: (p ++ suf) :=
    dropWhile_append_eq_right _ _ hnd (hdot _)
  have h5 : (p ++ suf).takeWhile Char.isDigit = p :=
    takeWhile_append_eq_left _ _ hpd hsuf
  have h6 : (p ++ suf).dropWhile Char.isDigit = suf :=
    dropWhile_append_eq_right _ _ hpd hsuf
  have hme : m.isEmpty = false := by cases m with
    | nil => exact absurd rfl hm
    | cons _ _ => rfl
  have hne : n.isEmpty = false := by cases n with
    | nil => exact absurd rfl hn
    | cons _ _ => rfl
  have hpe : p.isEmpty = false := by cases p with
    | nil => exact absurd rfl hp
    | cons _ _ => rfl
  refine ⟨(match suf with
    | '.' :: r => r
    | r => r).takeWhile (fun c => c != '\n'), ?_⟩
  unfold releaseMatch
  simp only [h1, h2, h3, h4, h5, h6, hme, hne, hpe, Bool.false_eq_true, if_false]

/-- C9: for every valid version string `<major>.<minor>.<patch><suffix>` (each
component a nonempty digit string, the optional free-form suffix not beginning
with a digit) and every store in which `normalized_release` is not yet set,
construction succeeds and stores exactly `<major>.<minor>.<patch>` — the
suffix dropped — under `normalized_release`. -/
theorem normalized_release_drops_suffix {τ : Type} (m n p suf g : List Char)
    (first : Option τ) (s : Store τ)
    (hm : m ≠ []) (hmd : ∀ c ∈ m, c.isDigit = true)
    (hn : n ≠ []) (hnd : ∀ c ∈ n, c.isDigit = true)
    (hp : p ≠ []) (hpd : ∀ c ∈ p, c.isDigit = true)
    (hsuf : ∀ c, suf.head? = some c → c.isDigit = false)
    (hfresh : s.normalized_release = none) :
    ∃ fsm s', init (m ++ '.' :: (n ++ '.' :: (p ++ suf))) g first s = .ok fsm s' ∧
      s'.normalized_release = some (m ++ '.' :: (n ++ '.' :: p)) := by
  obtain ⟨extra, hmatch⟩ := releaseMatch_decomp m n p suf hm hmd hn hnd hp hpd hsuf
  have hseed : ∀ s1 : Store τ, s1.normalized_release = none →
      ∃ fsm s', seedPhase (m ++ '.' :: (n ++ '.' :: (p ++ suf))) g first s1 = .ok fsm s' ∧
        s'.normalized_release = some (m ++ '.' :: (n ++ '.' :: p)) := by
    intro s1 h1
    unfold seedPhase
    rw [hmatch]
    refine ⟨_, _, rfl, ?_⟩
    simp only [seedBranch_normalized_release]
    rw [seedNormalized_of_none]
    simp only [seedRelease_normalized_release, seedGit_normalized_release, h1]
  unfold init
  split
  · exact hseed emptyStore rfl
  · exact hseed {s with finished := some false} hfresh

/-- Witness for C9 at the concrete input `3.10.1a2` on a fresh store: the
stored normalized release is `3.10.1`. -/
theorem normalized_release_drops_suffix_witness :
    ∃ fsm s', init (str "3" ++ '.' :: (str "10" ++ '.' :: (str "1" ++ str "a2")))
        (str "/repo") none (emptyStore (τ := Nat)) = .ok fsm s' ∧
      s'.normalized_release = some (str "3" ++ '.' :: (str "10" ++ '.' :: str "1")) :=
  normalized_release_drops_suffix (str "3") (str "10") (str "1") (str "a2") (str "/repo")
    none emptyStore (by decide) (by decide) (by decide) (by decide) (by decide) (by decide)
    (by decide) rfl

/-- When the `finished` flag is not stored as `True`, construction keeps the
store and merely (re)writes `finished = False` before seeding. -/
theorem init_of_not_finished {τ : Type} (r g : List Char) (first : Option τ) (s : Store τ)
    (hnr : s.finished ≠ some true) :
    init r g first s = seedPhase r g first {s with finished := some false} := by
  have hfb : truthyBool s.finished = false := by
    cases hf : s.finished with
    | none => rfl
    | some b => cases b with
      | false => rfl
      | true => exact absurd hf hnr
  unfold init
  rw [hfb]
  simp

/-- When the `finished` flag is stored as `True`, construction reopens the
shelve in reset mode: seeding runs on the empty store. -/
theorem init_of_finished {τ : Type} (r g : List Char) (first : Option τ) (s : Store τ)
    (hr : s.finished = some true) :
    init r g first s = seedPhase r g first emptyStore := by
  unfold init
  rw [hr]
  simp [truthyBool]

/-- Seeding never touches the engine bookkeeping keys (`finished`,
`completed_tasks`, `last_checkpoint`) or `gpg_key`, whether or not it raises. -/
theorem seedPhase_store_bookkeeping {τ : Type} (r g : List Char) (first : Option τ)
    (s1 : Store τ) :
    (seedPhase r g first s1).store.finished = s1.finished ∧
    (seedPhase r g first s1).store.completed_tasks = s1.completed_tasks ∧
    (seedPhase r g first s1).store.last_checkpoint = s1.last_checkpoint ∧
    (seedPhase r g first s1).store.gpg_key = s1.gpg_key := by
  unfold seedPhase
  cases hm : releaseMatch r with
  | none => simp
  | some quad =>
    obtain ⟨maj, minr, pat, ex⟩ := quad
    simp

/-- Seeding leaves a `git_repo` key that already holds a nonempty value
unchanged. -/
theorem seedPhase_keeps_git_repo {τ : Type} (r g : List Char) (first : Option τ)
    (s1 : Store τ) (v : List Char) (hv : s1.git_repo = some v) (hne : v ≠ []) :
    (seedPhase r g first s1).store.git_repo = some v := by
  unfold seedPhase
  cases hm : releaseMatch r with
  | none =>
    simp only [InitResult.store_err]
    exact seedGit_git_repo_of_nonempty g v s1 hv hne
  | some quad =>
    obtain ⟨maj, minr, pat, ex⟩ := quad
    simp only [InitResult.store_ok, seedBranch_git_repo, seedNormalized_git_repo,
      seedRelease_git_repo]
    exact seedGit_git_repo_of_nonempty g v s1 hv hne

/-- Seeding leaves a `release` key that already holds a nonempty value
unchanged. -/
theorem seedPhase_keeps_release {τ : Type} (r g : List Char) (first : Option τ)
    (s1 : Store τ) (v : List Char) (hv : s1.release = some v) (hne : v ≠ []) :
    (seedPhase r g first s1).store.release = some v := by
  unfold seedPhase
  cases hm : releaseMatch r with
  | none => simpa using hv
  | some quad =>
    obtain ⟨maj, minr, pat, ex⟩ := quad
    simp only [InitResult.store_ok, seedBranch_release, seedNormalized_release]
    exact seedRelease_release_of_nonempty r v _ (by simpa using hv) hne

/-- Seeding leaves a `normalized_release` key that already holds a nonempty
value unchanged. -/
theorem seedPhase_keeps_normalized {τ : Type} (r g : List Char) (first : Option τ)
    (s1 : Store τ) (v : List Char) (hv : s1.normalized_release = some v) (hne : v ≠ []) :
    (seedPhase r g first s1).store.normalized_release = some v := by
  unfold seedPhase
  cases hm : releaseMatch r with
  | none => simpa using hv
  | some quad =>
    obtain ⟨maj, minr, pat, ex⟩ := quad
    simp only [InitResult.store_ok, seedBranch_normalized_release]
    exact seedNormalized_of_nonempty _ v _ (by simpa using hv) hne

/-- Seeding leaves a `release_branch` key that already holds a nonempty value
unchanged. -/
theorem seedPhase_keeps_branch {τ : Type} (r g : List Char) (first : Option τ)
    (s1 : Store τ) (v : List Char) (hv : s1.release_branch = some v) (hne : v ≠ []) :
    (seedPhase r g first s1).store.release_branch = some v := by
  unfold seedPhase
  cases hm : releaseMatch r with
  | none => simpa using hv
  | some quad =>
    obtain ⟨maj, minr, pat, ex⟩ := quad
    simp only [InitResult.store_ok]
    exact seedBranch_of_nonempty _ v _ (by simpa using hv) hne

/-- C8: seeding is idempotent.  For each key written during seeding
(`git_repo`, `release`, `normalized_release`, `release_branch`), if the store
already holds a value under that key (a nonempty one — these keys only ever
receive nonempty strings, and Python's `if not self.db.get(key)` guard tests
exactly truthiness), then constructing the engine again against that store —
with any release string and repository path, and whether or not construction
then succeeds — leaves the stored value unchanged.  The store must not be a
completed one (`finished = True` resets it; that is C6's concern). -/
theorem seeding_is_idempotent {τ : Type} (r g : List Char) (first : Option τ)
    (s : Store τ) (hnr : s.finished ≠ some true) :
    (∀ v, s.git_repo = some v → v ≠ [] → (init r g first s).store.git_repo = some v) ∧
    (∀ v, s.release = some v → v ≠ [] → (init r g first s).store.release = some v) ∧
    (∀ v, s.normalized_release = some v → v ≠ [] →
      (init r g first s).store.normalized_release = some v) ∧
    (∀ v, s.release_branch = some v → v ≠ [] →
      (init r g first s).store.release_branch = some v) := by
  rw [init_of_not_finished r g first s hnr]
  exact ⟨fun v hv hne => seedPhase_keeps_git_repo r g first _ v hv hne,
    fun v hv hne => seedPhase_keeps_release r g first _ v hv hne,
    fun v hv hne => seedPhase_keeps_normalized r g first _ v hv hne,
    fun v hv hne => seedPhase_keeps_branch r g first _ v hv hne⟩

/-- Witness for C8: a store already seeded (as by a prior construction with
version `9.9.9rc1`) is reconstructed with version `1.2.3`; all four seeded
keys keep their old values. -/
theorem seeding_is_idempotent_witness :
    (init (str "1.2.3") (str "/other") none ({(emptyStore : Store Nat) with
      finished := some false,
      git_repo := some (str "/repo"),
      release := some (str "9.9.9rc1"),
      normalized_release := some (str "9.9.9"),
      release_branch := some (str "master")})).store.git_repo =
        some (str "/repo") ∧
    (init (str "1.2.3") (str "/other") none ({(emptyStore : Store Nat) with
      finished := some false,
      git_repo := some (str "/repo"),
      release := some (str "9.9.9rc1"),
      normalized_release := some (str "9.9.9"),
      release_branch := some (str "master")})).store.release =
        some (str "9.9.9rc1") ∧
    (init (str "1.2.3") (str "/other") none ({(emptyStore : Store Nat) with
      finished := some false,
      git_repo := some (str "/repo"),
      release := some (str "9.9.9rc1"),
      normalized_release := some (str "9.9.9"),
      release_branch := some (str "master")})).store.normalized_release =
        some (str "9.9.9") ∧
    (init (str "1.2.3") (str "/other") none ({(emptyStore : Store Nat) with
      finished := some false,
      git_repo := some (str "/repo"),
      release := some (str "9.9.9rc1"),
      normalized_release := some (str "9.9.9"),
      release_branch := some (str "master")})).store.release_branch =
        some (str "master") := by
  have h := seeding_is_idempotent (τ := Nat) (str "1.2.3") (str "/other") none
    {(emptyStore : Store Nat) with
      finished := some false,
      git_repo := some (str "/repo"),
      release := some (str "9.9.9rc1"),
      normalized_release := some (str "9.9.9"),
      release_branch := some (str "master")} (by decide)
  exact ⟨h.1 _ rfl (by decide), h.2.1 _ rfl (by decide), h.2.2.1 _ rfl (by decide),
    h.2.2.2 _ rfl (by decide)⟩

/-- C6: construction's handling of the `finished` flag.  If the store records
`finished = True`, construction discards all prior state — the completed-task
history, the checkpoint and every domain key — and runs seeding against the
empty store (the claim's fresh run); if the flag is absent it is set to
`False`; if the flag is present and `False`, every piece of existing state is
kept: the bookkeeping keys and `gpg_key` exactly, and each seeded domain key
whenever it holds a (nonempty) value. -/
theorem init_discards_on_finished_and_keeps_unfinished_state {τ : Type}
    (r g : List Char) (first : Option τ) (s : Store τ) :
    (s.finished = some true → init r g first s = seedPhase r g first emptyStore ∧
      (init r g first s).store.completed_tasks = none ∧
      (init r g first s).store.last_checkpoint = none ∧
      (init r g first s).store.gpg_key = none) ∧
    (s.finished = none → (init r g first s).store.finished = some false) ∧
    (s.finished = some false →
      (init r g first s).store.finished = some false ∧
      (init r g first s).store.completed_tasks = s.completed_tasks ∧
      (init r g first s).store.last_checkpoint = s.last_checkpoint ∧
      (init r g first s).store.gpg_key = s.gpg_key ∧
      (∀ v, s.git_repo = some v → v ≠ [] → (init r g first s).store.git_repo = some v) ∧
      (∀ v, s.release = some v → v ≠ [] → (init r g first s).store.release = some v) ∧
      (∀ v, s.normalized_release = some v → v ≠ [] →
        (init r g first s).store.normalized_release = some v) ∧
      (∀ v, s.release_branch = some v → v ≠ [] →
        (init r g first s).store.release_branch = some v)) := by
  refine ⟨fun hf => ?_, fun hf => ?_, fun hf => ?_⟩
  · rw [init_of_finished r g first s hf]
    have hb := seedPhase_store_bookkeeping r g first (emptyStore (τ := τ))
    exact ⟨rfl, hb.2.1, hb.2.2.1, hb.2.2.2⟩
  · have hnr : s.finished ≠ some true := by rw [hf]; exact fun h => Option.noConfusion h
    rw [init_of_not_finished r g first s hnr]
    exact (seedPhase_store_bookkeeping r g first _).1
  · have hnr : s.finished ≠ some true := by
      rw [hf]
      exact fun h => Bool.noConfusion (Option.some.inj h)
    have hkeep := seeding_is_idempotent r g first s hnr
    rw [init_of_not_finished r g first s hnr] at hkeep ⊢
    have hb := seedPhase_store_bookkeeping r g first ({s with finished := some false} : Store τ)
    exact ⟨hb.1, hb.2.1, hb.2.2.1, hb.2.2.2, hkeep.1, hkeep.2.1, hkeep.2.2.1, hkeep.2.2.2⟩

/-- Witness for C6 at concrete stores: a finished store is discarded (its
history, checkpoint and gpg key all gone), an absent flag is set to `False`,
and an unfinished store's state survives reconstruction. -/
theorem init_discards_on_finished_witness :
    ((init (str "1.2.3") (str "/repo") none ({(emptyStore : Store Nat) with
        finished := some true,
        completed_tasks := some [7],
        last_checkpoint := some 7,
        gpg_key := some (str "KEY")})).store.completed_tasks = none ∧
      (init (str "1.2.3") (str "/repo") none ({(emptyStore : Store Nat) with
        finished := some true,
        completed_tasks := some [7],
        last_checkpoint := some 7,
        gpg_key := some (str "KEY")})).store.last_checkpoint = none) ∧
    (init (str "1.2.3") (str "/repo") none (emptyStore : Store Nat)).store.finished =
      some false ∧
    (init (str "1.2.3") (str "/repo") none ({(emptyStore : Store Nat) with
      finished := some false,
      completed_tasks := some [7],
      last_checkpoint := some 9})).store.last_checkpoint = some 9 := by
  refine ⟨?_, ?_, ?_⟩
  · have h := (init_discards_on_finished_and_keeps_unfinished_state (τ := Nat)
      (str "1.2.3") (str "/repo") none {(emptyStore : Store Nat) with
        finished := some true,
        completed_tasks := some [7],
        last_checkpoint := some 7,
        gpg_key := some (str "KEY")}).1 rfl
    exact ⟨h.2.1, h.2.2.1⟩
  · exact (init_discards_on_finished_and_keeps_unfinished_state (τ := Nat)
      (str "1.2.3") (str "/repo") none emptyStore).2.1 rfl
  · exact ((init_discards_on_finished_and_keeps_unfinished_state (τ := Nat)
      (str "1.2.3") (str "/repo") none {(emptyStore : Store Nat) with
        finished := some false,
        completed_tasks := some [7],
        last_checkpoint := some 9}).2.2 rfl).2.2.1

/-- C4: when a task's body raises, the engine re-raises that very error to the
caller (`raise e from None` only suppresses context), and at that point the
persisted `last_checkpoint` is exactly the failing task's reference, the
persisted `completed_tasks` is the in-memory history — which does not include
the failing task, provided this execution had not already completed it, as in
any acyclic chain — and the `finished` flag is exactly what it was before the
iteration.  The hypotheses quantify over the failing iteration: since `runLoop`
recurses through earlier successful iterations with updated state, this covers
a failure at any point of a run. -/
theorem task_failure_reraises_and_leaves_checkpoint {τ ε : Type}
    (impl : τ → TaskImpl τ ε) (fuel : Nat) (fsm : FSM τ) (s s' : Store τ)
    (t : τ) (e : ε)
    (hpres : preservesBookkeeping impl)
    (hc : fsm.current_task = some t)
    (hrun : (impl t).run (checkpointStore fsm s) = (s', .error e))
    (hmem : t ∉ fsm.completed_tasks) :
    runLoop impl (fuel + 1) fsm s = .failed e fsm s' ∧
    s'.last_checkpoint = some t ∧
    s'.completed_tasks = some fsm.completed_tasks ∧
    t ∉ s'.completed_tasks.getD [] ∧
    s'.finished = s.finished := by
  have hp := hpres t (checkpointStore fsm s)
  rw [hrun] at hp
  have hcomp : s'.completed_tasks = some fsm.completed_tasks := by
    rw [hp.1]; rfl
  refine ⟨?_, ?_, hcomp, ?_, ?_⟩
  · simp [runLoop, hc, hrun]
  · rw [hp.2.1]
    simp [checkpointStore, hc]
  · rw [hcomp]
    simpa using hmem
  · rw [hp.2.2]
    rfl

/-- Witness for C4: the failing family at task 1 on a fresh store — the error
is surfaced unchanged, the checkpoint names task 1, the persisted history is
empty and `finished` is untouched. -/
theorem task_failure_reraises_and_leaves_checkpoint_witness :
    runLoop failing 1 ⟨some 1, []⟩ (emptyStore (τ := Nat)) =
      .failed () ⟨some 1, []⟩ {(emptyStore : Store Nat) with
        completed_tasks := some [],
        last_checkpoint := some 1} ∧
    ({(emptyStore : Store Nat) with
      completed_tasks := some [],
      last_checkpoint := some 1} : Store Nat).last_checkpoint = some 1 ∧
    ({(emptyStore : Store Nat) with
      completed_tasks := some [],
      last_checkpoint := some 1} : Store Nat).completed_tasks = some [] ∧
    (1 : Nat) ∉ (({(emptyStore : Store Nat) with
      completed_tasks := some [],
      last_checkpoint := some 1} : Store Nat).completed_tasks.getD []) ∧
    ({(emptyStore : Store Nat) with
      completed_tasks := some [],
      last_checkpoint := some 1} : Store Nat).finished = (emptyStore : Store Nat).finished :=
  task_failure_reraises_and_leaves_checkpoint failing 0 ⟨some 1, []⟩ emptyStore _ 1 ()
    (fun _ _ => ⟨rfl, rfl, rfl⟩) rfl rfl (by decide)

/-- C3 counterexample: the concrete three-task chain 1 → 2 → 3 runs to the
terminal task with no error, `finished = true` is persisted, the in-memory
history is `[1, 2, 3]` — but the persisted `completed_tasks` is `[1, 2]`: the
terminal task's entry never reaches the store, because the list is only
persisted by the next iteration's checkpoint and no checkpoint follows the
last task. -/
theorem terminal_task_missing_from_persisted_completed_tasks :
    runLoop chain3 10 ⟨some 1, []⟩ emptyStore =
      .done ⟨none, [1, 2, 3]⟩ {(emptyStore : Store Nat) with
        finished := some true,
        completed_tasks := some [1, 2],
        last_checkpoint := some 3} ∧
    (some [1, 2] : Option (List Nat)) ≠ some [1, 2, 3] := by
  exact ⟨by decide, by decide⟩

/-- C3 as amended: on every run that reaches the terminal task with no error
(task bodies not touching the bookkeeping keys), each task's reference is
appended to the in-memory `completed_tasks` on success, in execution order, and
that list is persisted by the next iteration's checkpoint — one task late.  So
when `finished = true` is persisted the in-memory history holds every executed
task, while the store's `completed_tasks` holds every executed task except the
terminal one: it equals the in-memory history with its last entry dropped. -/
theorem run_done_persists_all_but_terminal_task {τ ε : Type}
    (impl : τ → TaskImpl τ ε) (hpres : preservesBookkeeping impl) :
    ∀ (fuel : Nat) (fsm fsm' : FSM τ) (s s' : Store τ),
      runLoop impl fuel fsm s = .done fsm' s' →
      s'.finished = some true ∧
      (∃ ts, fsm'.completed_tasks = fsm.completed_tasks ++ ts) ∧
      (fsm.current_task ≠ none →
        fsm'.completed_tasks ≠ [] ∧
        s'.completed_tasks = some fsm'.completed_tasks.dropLast) := by
  intro fuel
  induction fuel with
  | zero =>
    intro fsm fsm' s s' h
    simp [runLoop] at h
  | succ n ih =>
    intro fsm fsm' s s' h
    cases hc : fsm.current_task with
    | none =>
      simp [runLoop, hc] at h
      obtain ⟨h1, h2⟩ := h
      refine ⟨by rw [← h2], ⟨[], by simp [← h1]⟩, fun hne => absurd rfl hne⟩
    | some t =>
      simp only [runLoop, hc] at h
      cases hr : (impl t).run (checkpointStore fsm s) with
      | mk s1 r =>
        rw [hr] at h
        cases r with
        | error e => simp at h
        | ok v =>
          simp only at h
          have hp := hpres t (checkpointStore fsm s)
          rw [hr] at hp
          cases hc2 : ((impl t).next s1) with
          | none =>
            cases n with
            | zero => simp [runLoop] at h
            | succ m =>
              simp [runLoop, hc2] at h
              obtain ⟨h1, h2⟩ := h
              subst h1
              refine ⟨by rw [← h2], ⟨[t], rfl⟩, fun _ => ⟨by simp, ?_⟩⟩
              rw [← h2]
              have : s1.completed_tasks = some fsm.completed_tasks := by
                rw [hp.1]; rfl
              simp only [List.dropLast_concat]
              exact this
          | some t2 =>
            have hrec := ih ⟨(impl t).next s1, fsm.completed_tasks ++ [t]⟩ fsm' s1 s' h
            obtain ⟨hfin, ⟨ts, hts⟩, hlast⟩ := hrec
            refine ⟨hfin, ⟨[t] ++ ts, by simpa [List.append_assoc] using hts⟩, fun _ => ?_⟩
            exact hlast (by simp [hc2])

/-- Witness for C3's amended theorem on the concrete chain 1 → 2 → 3: the
in-memory history ends `[1, 2, 3]` and the persisted list is its `dropLast`,
`[1, 2]`. -/
theorem run_done_persists_all_but_terminal_task_witness :
    ({(emptyStore : Store Nat) with
      finished := some true,
      completed_tasks := some [1, 2],
      last_checkpoint := some 3} : Store Nat).finished = some true ∧
    (∃ ts, ([1, 2, 3] : List Nat) = [] ++ ts) ∧
    ((some 1 : Option Nat) ≠ none →
      ([1, 2, 3] : List Nat) ≠ [] ∧
      ({(emptyStore : Store Nat) with
        finished := some true,
        completed_tasks := some [1, 2],
        last_checkpoint := some 3} : Store Nat).completed_tasks =
        some ([1, 2, 3] : List Nat).dropLast) :=
  run_done_persists_all_but_terminal_task chain3
    (fun _ _ => ⟨rfl, rfl, rfl⟩) 10 ⟨some 1, []⟩ ⟨none, [1, 2, 3]⟩ emptyStore
    {(emptyStore : Store Nat) with
      finished := some true,
      completed_tasks := some [1, 2],
      last_checkpoint := some 3} (by decide)

/-- Construction succeeds whenever the release string matches the pattern. -/
theorem init_ok_of_matches {τ : Type} (r g : List Char) (first : Option τ) (s : Store τ)
    (q : List Char × List Char × List Char × List Char) (hq : releaseMatch r = some q) :
    ∃ fsm1 s1, init r g first s = .ok fsm1 s1 := by
  obtain ⟨maj, minr, pat, ex⟩ := q
  unfold init
  split <;> (unfold seedPhase; rw [hq]; exact ⟨_, _, rfl⟩)

/-- Without a reset, construction leaves `last_checkpoint` as it was. -/
theorem init_store_last_checkpoint_of_not_finished {τ : Type} (r g : List Char)
    (first : Option τ) (s : Store τ) (hnr : s.finished ≠ some true) :
    (init r g first s).store.last_checkpoint = s.last_checkpoint := by
  rw [init_of_not_finished r g first s hnr]
  exact (seedPhase_store_bookkeeping r g first _).2.2.1

/-- After a reset, the fresh store holds no checkpoint. -/
theorem init_store_last_checkpoint_of_finished {τ : Type} (r g : List Char)
    (first : Option τ) (s : Store τ) (hf : s.finished = some true) :
    (init r g first s).store.last_checkpoint = none := by
  rw [init_of_finished r g first s hf]
  exact (seedPhase_store_bookkeeping r g first _).2.2.1

/-- C5: the initial transition, as the driver performs it (construction
followed by `load_checkpoint`, falling back to the caller-supplied starting
task): if the store holds a resumable checkpoint — `finished` not `True` and a
non-null `last_checkpoint` — the engine's current-task pointer ends up at that
checkpointed task; if the checkpoint is null, or the store recorded a completed
run (which construction resets, erasing the checkpoint), the pointer ends up at
the caller-supplied starting task. -/
theorem startup_resumes_from_checkpoint_or_starts_fresh {τ : Type} (r g : List Char)
    (first : τ) (s : Store τ) (q : List Char × List Char × List Char × List Char)
    (hq : releaseMatch r = some q) :
    (∀ t, s.finished ≠ some true → s.last_checkpoint = some t →
      ∃ fsm s1, startup r g first s = .ok fsm s1 ∧ fsm.current_task = some t) ∧
    ((s.last_checkpoint = none ∨ s.finished = some true) →
      ∃ fsm s1, startup r g first s = .ok fsm s1 ∧ fsm.current_task = some first) := by
  obtain ⟨fsm1, s1, hinit⟩ := init_ok_of_matches r g none s q hq
  constructor
  · intro t hnr hlc
    have hl1 : s1.last_checkpoint = some t := by
      have hx := init_store_last_checkpoint_of_not_finished r g none s hnr
      rw [hinit] at hx
      simp only [InitResult.store_ok] at hx
      rw [hx, hlc]
    refine ⟨{fsm1 with current_task := some t}, s1, ?_, rfl⟩
    simp only [startup, hinit, loadCheckpoint, hl1]
  · intro hdisj
    have hl1 : s1.last_checkpoint = none := by
      by_cases hf : s.finished = some true
      · have hx := init_store_last_checkpoint_of_finished r g none s hf
        rw [hinit] at hx
        simpa using hx
      · have hx := init_store_last_checkpoint_of_not_finished r g none s hf
        rw [hinit] at hx
        simp only [InitResult.store_ok] at hx
        cases hdisj with
        | inl hlc => rw [hx, hlc]
        | inr hff => exact absurd hff hf
    refine ⟨{{fsm1 with current_task := s1.last_checkpoint} with
      current_task := some first}, s1, ?_, rfl⟩
    simp only [startup, hinit, loadCheckpoint, hl1]

/-- Witness for C5 at concrete stores: with a stored checkpoint at task 7 and
`finished = False` the pointer resumes at 7; on a fresh store it is the
caller's task 3. -/
theorem startup_resumes_from_checkpoint_witness :
    (∃ fsm s1, startup (str "1.2.3") (str "/repo") (3 : Nat)
        {(emptyStore : Store Nat) with
          finished := some false,
          last_checkpoint := some 7} = .ok fsm s1 ∧ fsm.current_task = some 7) ∧
    (∃ fsm s1, startup (str "1.2.3") (str "/repo") (3 : Nat) (emptyStore : Store Nat) =
      .ok fsm s1 ∧ fsm.current_task = some 3) := by
  constructor
  · exact (startup_resumes_from_checkpoint_or_starts_fresh (str "1.2.3") (str "/repo") 3
      {(emptyStore : Store Nat) with
        finished := some false,
        last_checkpoint := some 7}
      (str "1", str "2", str "3", str "") (by decide)).1 7 (by decide) rfl
  · exact (startup_resumes_from_checkpoint_or_starts_fresh (str "1.2.3") (str "/repo") 3
      (emptyStore : Store Nat)
      (str "1", str "2", str "3", str "") (by decide)).2 (Or.inl rfl)

/-- C7: the checkpoint invariant.  Along every durable state a run writes
(assuming task bodies keep off the bookkeeping keys and the executed chain
never revisits a completed task, per the spec's acyclicity stipulation), if
`last_checkpoint` is non-null it refers to a task absent from the persisted
`completed_tasks` — a task not yet confirmed complete; and once a checkpoint
has been written (`last_checkpoint` non-null at entry), it never becomes null
again during the run, so a null checkpoint can only be observed before the
first checkpoint of a store generation — or after `finished = true`, when
construction resets the store (proved as part of C6). -/
theorem last_checkpoint_invariant {τ ε : Type} (impl : τ → TaskImpl τ ε)
    (hpres : preservesBookkeeping impl) :
    ∀ (fuel : Nat) (fsm : FSM τ) (s : Store τ),
      traceOK impl fuel fsm s → lcInv s →
      (∀ s1 ∈ storeTrace impl fuel fsm s, lcInv s1) ∧
      (s.last_checkpoint ≠ none →
        ∀ s1 ∈ storeTrace impl fuel fsm s, s1.last_checkpoint ≠ none) := by
  intro fuel
  induction fuel with
  | zero =>
    intro fsm s hok hinv
    simp [storeTrace]
  | succ n ih =>
    intro fsm s hok hinv
    cases hc : fsm.current_task with
    | none =>
      simp only [storeTrace, hc]
      constructor
      · intro s1 hs1
        simp only [List.mem_singleton] at hs1
        subst hs1
        intro t' ht'
        exact hinv t' ht'
      · intro hnn s1 hs1
        simp only [List.mem_singleton] at hs1
        subst hs1
        exact hnn
    | some t =>
      simp only [traceOK, hc] at hok
      obtain ⟨hmem, hrest⟩ := hok
      have hsc : lcInv (checkpointStore fsm s) := by
        intro t' ht'
        have hct : fsm.current_task = some t' := ht'
        rw [hc] at hct
        obtain rfl : t' = t := (Option.some.inj hct).symm
        exact hmem
      cases hr : (impl t).run (checkpointStore fsm s) with
      | mk s1 r =>
        have hp := hpres t (checkpointStore fsm s)
        rw [hr] at hp
        have hs1inv : lcInv s1 := by
          intro t' ht'
          have ht2 : (checkpointStore fsm s).last_checkpoint = some t' := by
            rw [← hp.2.1]; exact ht'
          have hgoal := hsc t' ht2
          intro hcontra
          apply hgoal
          have hcc : s1.completed_tasks = (checkpointStore fsm s).completed_tasks := hp.1
          rw [← hcc]
          exact hcontra
        have hs1last : s1.last_checkpoint = some t := by
          have : s1.last_checkpoint = (checkpointStore fsm s).last_checkpoint := hp.2.1
          rw [this]
          simp [checkpointStore, hc]
        rw [hr] at hrest
        cases r with
        | error e =>
          simp only [storeTrace, hc, hr]
          constructor
          · intro sx hsx
            simp only [List.mem_cons, List.mem_singleton, List.not_mem_nil, or_false] at hsx
            rcases hsx with h | h <;> subst h
            · exact hsc
            · exact hs1inv
          · intro hnn sx hsx
            simp only [List.mem_cons, List.mem_singleton, List.not_mem_nil, or_false] at hsx
            rcases hsx with h | h <;> subst h
            · simp [checkpointStore, hc]
            · rw [hs1last]; simp
        | ok v =>
          simp only at hrest
          have hih := ih ⟨(impl t).next s1, fsm.completed_tasks ++ [t]⟩ s1 hrest hs1inv
          simp only [storeTrace, hc, hr]
          constructor
          · intro sx hsx
            simp only [List.mem_cons] at hsx
            rcases hsx with h | h | h
            · subst h; exact hsc
            · subst h; exact hs1inv
            · exact hih.1 sx h
          · intro hnn sx hsx
            simp only [List.mem_cons] at hsx
            rcases hsx with h | h | h
            · subst h; simp [checkpointStore, hc]
            · subst h; rw [hs1last]; simp
            · exact hih.2 (by rw [hs1last]; simp) sx h

/-- Witness for C7 on the concrete chain 1 → 2 → 3 from a fresh store: every
durable state of the whole run satisfies the invariant. -/
theorem last_checkpoint_invariant_witness :
    (∀ s1 ∈ storeTrace chain3 10 ⟨some 1, []⟩ (emptyStore (τ := Nat)), lcInv s1) ∧
    ((emptyStore (τ := Nat)).last_checkpoint ≠ none →
      ∀ s1 ∈ storeTrace chain3 10 ⟨some 1, []⟩ (emptyStore (τ := Nat)),
        s1.last_checkpoint ≠ none) :=
  last_checkpoint_invariant chain3 (fun _ _ => ⟨rfl, rfl, rfl⟩) 10 ⟨some 1, []⟩ emptyStore
    (by simp [traceOK, chain3, checkpointStore])
    (fun t ht => Option.noConfusion ht)

/-- C10: the tool-availability tasks.  Each of `check_git`, `check_make`,
`check_blurb` and `check_autoconf` returns the result of the `shutil.which`
lookup — whatever it is, including `none` when the tool is absent — without
raising and without touching the store; and four engine iterations from
`check_git`, under every possible lookup environment, complete all four tasks
in order and leave the engine at their successor `check_gpg_keys`: a missing
tool never halts the chain. -/
theorem tool_check_tasks_never_fail_and_advance {ε : Type}
    (which : List Char → Option (List Char)) (rest : TaskRef → TaskImpl TaskRef ε)
    (s : Store TaskRef) :
    ((checksImpl which rest .check_git).run s = (s, .ok (which (str "git"))) ∧
      (checksImpl which rest .check_make).run s = (s, .ok (which (str "make"))) ∧
      (checksImpl which rest .check_blurb).run s = (s, .ok (which (str "blurb"))) ∧
      (checksImpl which rest .check_autoconf).run s = (s, .ok (which (str "autoconf")))) ∧
    runLoop (checksImpl which rest) 4 ⟨some .check_git, []⟩ s =
      .outOfFuel
        ⟨some .check_gpg_keys, [.check_git, .check_make, .check_blurb, .check_autoconf]⟩
        {s with
          completed_tasks := some [.check_git, .check_make, .check_blurb],
          last_checkpoint := some .check_autoconf} := by
  exact ⟨⟨rfl, rfl, rfl, rfl⟩, rfl⟩

end ReleaseTools
